import Mathlib

/-!
Verification of the unikorn-rs Hangul syllable codec and liaison transducers.

The Rust sources are embedded shallowly:

* `Choseong`, `Jungseong`, `Jongseong`, `Syllable` mirror the enums and the
  `Syllable` struct of `unicode-korean-multitool/src/lib.rs` (the identical
  codec also appears in `src/syllable.rs` and `src/lib.rs`).  The enum
  discriminants (`repr(u8)`, with `Jongseong` starting at 1) are exposed by
  `toNat`, and the derived `TryFromPrimitive` conversions by `ofNat?`.
* Characters are modelled by their Unicode code points as `Nat`; Rust strings
  are `List Nat` (one entry per `char`, which is exactly how the transforms
  iterate them).
* `ChoseongPullup` embeds `choseong-pullup/src/lib.rs`, `JongseongPushdown`
  embeds `jongseong-pushdown/src/lib.rs`, and `HorizontalFlip` embeds
  `horizontal-chojongseong-flip/src/lib.rs`.  Those two transducer crates are
  compiled against a revision of `unicode_korean_multitool` whose `Jongseong`
  carries an explicit `Empty` variant with discriminant 0 in place of
  `Option<Jongseong>`; that variant is isomorphic to the `Option` model used
  here (`Empty` <-> `none`, both contributing 0 to composition), and the rule
  tables below render `Jongseong::Empty` as `none`.
-/

set_option maxRecDepth 1024

namespace Unikorn

/-- Initial consonants (`Choseong` in `unicode-korean-multitool/src/lib.rs`),
`repr(u8)` discriminants 0..18. -/
inductive Choseong where
  | Kiyeok
  | SsangKiyeok
  | Nieun
  | Tikeut
  | SsangTikeut
  | Rieul
  | Mieum
  | Pieup
  | SsangPieup
  | Sios
  | SsangSios
  | Ieung
  | Cieuc
  | SsangCieuc
  | Chieuch
  | Khieukh
  | Thieuth
  | Phieuph
  | Hieuh
deriving DecidableEq, Repr

/-- The `IntoPrimitive` discriminant of a `Choseong`. -/
def Choseong.toNat : Choseong → Nat
  | .Kiyeok => 0
  | .SsangKiyeok => 1
  | .Nieun => 2
  | .Tikeut => 3
  | .SsangTikeut => 4
  | .Rieul => 5
  | .Mieum => 6
  | .Pieup => 7
  | .SsangPieup => 8
  | .Sios => 9
  | .SsangSios => 10
  | .Ieung => 11
  | .Cieuc => 12
  | .SsangCieuc => 13
  | .Chieuch => 14
  | .Khieukh => 15
  | .Thieuth => 16
  | .Phieuph => 17
  | .Hieuh => 18

/-- The derived `TryFromPrimitive` conversion `Choseong::try_from(u8)`. -/
def Choseong.ofNat? : Nat → Option Choseong
  | 0 => some .Kiyeok
  | 1 => some .SsangKiyeok
  | 2 => some .Nieun
  | 3 => some .Tikeut
  | 4 => some .SsangTikeut
  | 5 => some .Rieul
  | 6 => some .Mieum
  | 7 => some .Pieup
  | 8 => some .SsangPieup
  | 9 => some .Sios
  | 10 => some .SsangSios
  | 11 => some .Ieung
  | 12 => some .Cieuc
  | 13 => some .SsangCieuc
  | 14 => some .Chieuch
  | 15 => some .Khieukh
  | 16 => some .Thieuth
  | 17 => some .Phieuph
  | 18 => some .Hieuh
  | _ => none

/-- Medial vowels (`Jungseong`), `repr(u8)` discriminants 0..20. -/
inductive Jungseong where
  | A
  | Ae
  | Ya
  | Yae
  | Eo
  | E
  | Yeo
  | Ye
  | O
  | Wa
  | Wae
  | Oe
  | Yo
  | U
  | Weo
  | We
  | Wi
  | Yu
  | Eu
  | Yi
  | I
deriving DecidableEq, Repr

/-- The `IntoPrimitive` discriminant of a `Jungseong`. -/
def Jungseong.toNat : Jungseong → Nat
  | .A => 0
  | .Ae => 1
  | .Ya => 2
  | .Yae => 3
  | .Eo => 4
  | .E => 5
  | .Yeo => 6
  | .Ye => 7
  | .O => 8
  | .Wa => 9
  | .Wae => 10
  | .Oe => 11
  | .Yo => 12
  | .U => 13
  | .Weo => 14
  | .We => 15
  | .Wi => 16
  | .Yu => 17
  | .Eu => 18
  | .Yi => 19
  | .I => 20

/-- The derived `TryFromPrimitive` conversion `Jungseong::try_from(u8)`. -/
def Jungseong.ofNat? : Nat → Option Jungseong
  | 0 => some .A
  | 1 => some .Ae
  | 2 => some .Ya
  | 3 => some .Yae
  | 4 => some .Eo
  | 5 => some .E
  | 6 => some .Yeo
  | 7 => some .Ye
  | 8 => some .O
  | 9 => some .Wa
  | 10 => some .Wae
  | 11 => some .Oe
  | 12 => some .Yo
  | 13 => some .U
  | 14 => some .Weo
  | 15 => some .We
  | 16 => some .Wi
  | 17 => some .Yu
  | 18 => some .Eu
  | 19 => some .Yi
  | 20 => some .I
  | _ => none

/-- Final consonants (`Jongseong`), `repr(u8)` discriminants starting at 1
(`Kiyeok = 1`, ..., `Hieuh = 27`). -/
inductive Jongseong where
  | Kiyeok
  | SsangKiyeok
  | KiyeokSios
  | Nieun
  | NieunCieuc
  | NieunHieuh
  | Tikeut
  | Rieul
  | RieulKiyeok
  | RieulMieum
  | RieulPieup
  | RieulSios
  | RieulThieuth
  | RieulPhieuph
  | RieulHieuh
  | Mieum
  | Pieup
  | PieupSios
  | Sios
  | SsangSios
  | Ieung
  | Cieuc
  | Chieuch
  | Khieukh
  | Thieuth
  | Phieuph
  | Hieuh
deriving DecidableEq, Repr

/-- The `IntoPrimitive` discriminant of a `Jongseong` (enumeration starts
at 1). -/
def Jongseong.toNat : Jongseong → Nat
  | .Kiyeok => 1
  | .SsangKiyeok => 2
  | .KiyeokSios => 3
  | .Nieun => 4
  | .NieunCieuc => 5
  | .NieunHieuh => 6
  | .Tikeut => 7
  | .Rieul => 8
  | .RieulKiyeok => 9
  | .RieulMieum => 10
  | .RieulPieup => 11
  | .RieulSios => 12
  | .RieulThieuth => 13
  | .RieulPhieuph => 14
  | .RieulHieuh => 15
  | .Mieum => 16
  | .Pieup => 17
  | .PieupSios => 18
  | .Sios => 19
  | .SsangSios => 20
  | .Ieung => 21
  | .Cieuc => 22
  | .Chieuch => 23
  | .Khieukh => 24
  | .Thieuth => 25
  | .Phieuph => 26
  | .Hieuh => 27

/-- The derived `TryFromPrimitive` conversion `Jongseong::try_from(u8)`;
fails on 0, which the codec turns into `None`. -/
def Jongseong.ofNat? : Nat → Option Jongseong
  | 1 => some .Kiyeok
  | 2 => some .SsangKiyeok
  | 3 => some .KiyeokSios
  | 4 => some .Nieun
  | 5 => some .NieunCieuc
  | 6 => some .NieunHieuh
  | 7 => some .Tikeut
  | 8 => some .Rieul
  | 9 => some .RieulKiyeok
  | 10 => some .RieulMieum
  | 11 => some .RieulPieup
  | 12 => some .RieulSios
  | 13 => some .RieulThieuth
  | 14 => some .RieulPhieuph
  | 15 => some .RieulHieuh
  | 16 => some .Mieum
  | 17 => some .Pieup
  | 18 => some .PieupSios
  | 19 => some .Sios
  | 20 => some .SsangSios
  | 21 => some .Ieung
  | 22 => some .Cieuc
  | 23 => some .Chieuch
  | 24 => some .Khieukh
  | 25 => some .Thieuth
  | 26 => some .Phieuph
  | 27 => some .Hieuh
  | _ => none

/-- The crate's error type; `NonKorean` carries the offending code point. -/
inductive Error where
  | NonKorean (c : Nat)
deriving DecidableEq, Repr

/-- `Syllable` struct: initial, medial, optional final. -/
structure Syllable where
  choseong : Choseong
  jungseong : Jungseong
  jongseong : Option Jongseong
deriving DecidableEq, Repr

/-- `Syllable::is_one_of_us`: membership in the Precomposed Hangul Syllables
range U+AC00 ..= U+D7A3. -/
def Syllable.is_one_of_us (character : Nat) : Bool :=
  decide (0xAC00 ≤ character ∧ character ≤ 0xD7A3)

/-- `impl From<Syllable> for char`: composition by fixed-radix positional
arithmetic. -/
def Syllable.toChar (syllable : Syllable) : Nat :=
  0xAC00
    + syllable.choseong.toNat * 21 * 28
    + syllable.jungseong.toNat * 28
    + match syllable.jongseong with
      | some jongseong => jongseong.toNat
      | none => 0

/-- `impl TryFrom<char> for Syllable`: range check, then exact division and
remainder by the radices 28 and 21.  The `match` models the two `.unwrap()`
calls of the source (provably never hit for an in-range code point). -/
def Syllable.try_from (character : Nat) : Except Error Syllable :=
  if Syllable.is_one_of_us character = false then
    .error (.NonKorean character)
  else
    let u0 := character - 0xAC00
    let jongseongIdx := u0 % 28
    let u1 := u0 - jongseongIdx
    let jungseongIdx := (u1 / 28) % 21
    let u2 := u1 - jungseongIdx * 28
    let choseongIdx := u2 / (21 * 28)
    match Choseong.ofNat? choseongIdx, Jungseong.ofNat? jungseongIdx with
    | some choseong, some jungseong =>
        .ok ⟨choseong, jungseong, Jongseong.ofNat? jongseongIdx⟩
    | _, _ => .error (.NonKorean character)

instance {ε α : Type} [DecidableEq ε] [DecidableEq α] : DecidableEq (Except ε α) := by
  intro a b
  cases a <;> cases b
  case error.error e f =>
    exact if h : e = f then .isTrue (by rw [h]) else .isFalse (by intro hh; cases hh; exact h rfl)
  case error.ok e f => exact .isFalse (by intro hh; cases hh)
  case ok.error e f => exact .isFalse (by intro hh; cases hh)
  case ok.ok e f =>
    exact if h : e = f then .isTrue (by rw [h]) else .isFalse (by intro hh; cases hh; exact h rfl)

/-- The transducers' `Syllable::try_from(c).unwrap()`, always called behind an
`is_one_of_us` check; the fallback value models the unreachable panic. -/
def Syllable.decompose (character : Nat) : Syllable :=
  match Syllable.try_from character with
  | .ok syllable => syllable
  | .error _ => ⟨.Ieung, .A, none⟩

example : Syllable.try_from 0xC77C =
    .ok ⟨.Ieung, .I, some .Rieul⟩ := by decide

example : Syllable.toChar ⟨.Sios, .Eo, some .Nieun⟩ = 0xC120 := by decide

example : Syllable.try_from 0x40 = .error (.NonKorean 0x40) := by decide

end Unikorn

namespace ChoseongPullup

open Unikorn

/-- A pull-up rewrite entry `(jongseong_a, choseong_b, jongseong_c, extended)`:
when the current syllable has final `jongseong_a` and the next syllable has
initial `choseong_b`, replace the current final with `jongseong_c` and the next
initial with `Ieung`.  `Jongseong::Empty` of the crate's dependency revision is
rendered as `none`. -/
abbrev Entry := Option Jongseong × Choseong × Option Jongseong × Bool

/-- The `RULESET` constant of `choseong-pullup/src/lib.rs`, in declared
order. -/
def RULESET : List Entry := [
  (none, .Kiyeok, some .Kiyeok, false),
  (none, .SsangKiyeok, some .SsangKiyeok, false),
  (none, .Nieun, some .Nieun, false),
  (none, .Tikeut, some .Tikeut, false),
  (none, .Rieul, some .Rieul, false),
  (none, .Mieum, some .Mieum, false),
  (none, .Pieup, some .Pieup, false),
  (none, .Sios, some .Sios, false),
  (none, .SsangSios, some .SsangSios, false),
  (none, .Cieuc, some .Cieuc, false),
  (none, .Chieuch, some .Chieuch, false),
  (none, .Khieukh, some .Khieukh, false),
  (none, .Thieuth, some .Thieuth, false),
  (none, .Phieuph, some .Phieuph, false),
  (none, .Hieuh, some .Hieuh, true),
  (some .Kiyeok, .Kiyeok, some .SsangKiyeok, true),
  (some .Kiyeok, .Sios, some .KiyeokSios, false),
  (some .Nieun, .Cieuc, some .NieunCieuc, false),
  (some .Nieun, .Hieuh, some .NieunHieuh, true),
  (some .Rieul, .Kiyeok, some .RieulKiyeok, false),
  (some .Rieul, .Mieum, some .RieulMieum, false),
  (some .Rieul, .Pieup, some .RieulPieup, false),
  (some .Rieul, .Sios, some .RieulSios, false),
  (some .Rieul, .Thieuth, some .RieulThieuth, false),
  (some .Rieul, .Phieuph, some .RieulPhieuph, false),
  (some .Rieul, .Hieuh, some .RieulHieuh, true),
  (some .Pieup, .Sios, some .PieupSios, false),
  (some .Sios, .Sios, some .SsangSios, true)]

/-- Eligibility of one table entry for the match key `(jongseong of the
current syllable, choseong of the next syllable)`; `e.2.2.2 = false ∨ ext =
true` is Rust's `extended <= extended_rulset` on `bool`. -/
def Matches (jongseong : Option Jongseong) (choseong : Choseong) (ext : Bool)
    (e : Entry) : Prop :=
  e.1 = jongseong ∧ e.2.1 = choseong ∧ (e.2.2.2 = false ∨ ext = true)

instance (jongseong : Option Jongseong) (choseong : Choseong) (ext : Bool)
    (e : Entry) : Decidable (Matches jongseong choseong ext e) := by
  unfold Matches; infer_instance

/-- The `for ... in RULESET.iter()` loop with `break`: first matching entry
wins, later entries are never inspected. -/
def findRule (jongseong : Option Jongseong) (choseong : Choseong) (ext : Bool) :
    List Entry → Option Entry
  | [] => none
  | e :: rest =>
    if Matches jongseong choseong ext e then some e
    else findRule jongseong choseong ext rest

/-- Lines 149-152 of the scan loop: a pending pull overwrites the current
syllable's choseong with `Ieung` and is cleared. -/
def applyPulled (pulled : Bool) (s : Syllable) : Syllable :=
  if pulled then { s with choseong := .Ieung } else s

/-- One iteration of the scan loop for a character `current` that already
passed the `is_one_of_us` test, with `nextc` the peeked character (if any).
Returns the emitted code point and the carry-over flag for the next
iteration. -/
def step (ext pulled : Bool) (current : Nat) (nextc : Option Nat) :
    Nat × Bool :=
  let cur := applyPulled pulled (Syllable.decompose current)
  match nextc with
  | none => (cur.toChar, false)
  | some next =>
    if Syllable.is_one_of_us next = false then (cur.toChar, false)
    else
      let nxt := Syllable.decompose next
      match findRule cur.jongseong nxt.choseong ext RULESET with
      | some e => (Syllable.toChar { cur with jongseong := e.2.2.1 }, true)
      | none => (cur.toChar, false)

/-- The `while let` scan: non-syllable characters are emitted verbatim with
the flag untouched; syllable characters go through `step` with one-character
lookahead. -/
def go (ext : Bool) : Bool → List Nat → List Nat
  | _, [] => []
  | pulled, current :: rest =>
    if Syllable.is_one_of_us current = false then
      current :: go ext pulled rest
    else
      (step ext pulled current rest.head?).1 ::
        go ext (step ext pulled current rest.head?).2 rest

/-- `pullup_choseong_config`. -/
def pullup_choseong_config (source : List Nat) (extended_rulset : Bool) :
    List Nat :=
  go extended_rulset false source

/-- `pullup_choseong`. -/
def pullup_choseong (source : List Nat) : List Nat :=
  pullup_choseong_config source false

end ChoseongPullup

namespace JongseongPushdown

open Unikorn

/-- A push-down rewrite entry `(jongseong_a, jongseong_b, choseong_c,
extended)`: when the current syllable has final `jongseong_a` and the next
syllable has initial `Ieung`, replace the current final with `jongseong_b` and
the next initial with `choseong_c`. -/
abbrev Entry := Option Jongseong × Option Jongseong × Choseong × Bool

/-- The `RULESET` constant of `jongseong-pushdown/src/lib.rs`, in declared
order. -/
def RULESET : List Entry := [
  (some .Kiyeok, none, .Kiyeok, false),
  (some .SsangKiyeok, none, .SsangKiyeok, false),
  (some .KiyeokSios, some .Kiyeok, .Sios, false),
  (some .Nieun, none, .Nieun, false),
  (some .NieunCieuc, some .Nieun, .Cieuc, false),
  (some .NieunHieuh, some .Nieun, .Hieuh, true),
  (some .Tikeut, none, .Tikeut, false),
  (some .Rieul, none, .Rieul, false),
  (some .RieulKiyeok, some .Rieul, .Kiyeok, false),
  (some .RieulMieum, some .Rieul, .Mieum, false),
  (some .RieulPieup, some .Rieul, .Pieup, false),
  (some .RieulSios, some .Rieul, .Sios, false),
  (some .RieulThieuth, some .Rieul, .Thieuth, false),
  (some .RieulPhieuph, some .Rieul, .Phieuph, false),
  (some .RieulHieuh, some .Rieul, .Hieuh, true),
  (some .Mieum, none, .Mieum, false),
  (some .Pieup, none, .Pieup, false),
  (some .PieupSios, some .Pieup, .Sios, false),
  (some .Sios, none, .Sios, false),
  (some .SsangSios, none, .SsangSios, false),
  (some .Cieuc, none, .Cieuc, false),
  (some .Chieuch, none, .Chieuch, false),
  (some .Khieukh, none, .Khieukh, false),
  (some .Thieuth, none, .Thieuth, false),
  (some .Phieuph, none, .Phieuph, false),
  (some .Hieuh, none, .Hieuh, true)]

/-- Eligibility of one entry: the entry's trigger final equals the current
syllable's final, the next syllable's initial is `Ieung`, and
`is_extended <= extended_flag`. -/
def Matches (jongseong : Option Jongseong) (nextChoseong : Choseong)
    (ext : Bool) (e : Entry) : Prop :=
  e.1 = jongseong ∧ Choseong.Ieung = nextChoseong ∧ (e.2.2.2 = false ∨ ext = true)

instance (jongseong : Option Jongseong) (nextChoseong : Choseong) (ext : Bool)
    (e : Entry) : Decidable (Matches jongseong nextChoseong ext e) := by
  unfold Matches; infer_instance

/-- The `for ... in RULESET.iter()` loop with `break`. -/
def findRule (jongseong : Option Jongseong) (nextChoseong : Choseong)
    (ext : Bool) : List Entry → Option Entry
  | [] => none
  | e :: rest =>
    if Matches jongseong nextChoseong ext e then some e
    else findRule jongseong nextChoseong ext rest

/-- The "additional extended ruleset check" (the palatalization guard): the
current final is Tikeut or Thieuth and the next medial is one of the iotated
vowels. -/
def additionalCheck (cur nxt : Syllable) : Prop :=
  (cur.jongseong = some .Tikeut ∨ cur.jongseong = some .Thieuth) ∧
    (nxt.jungseong = .Ya ∨ nxt.jungseong = .Yae ∨ nxt.jungseong = .Yeo ∨
     nxt.jungseong = .Ye ∨ nxt.jungseong = .Yo ∨ nxt.jungseong = .Yu ∨
     nxt.jungseong = .I)

instance (cur nxt : Syllable) : Decidable (additionalCheck cur nxt) := by
  unfold additionalCheck; infer_instance

/-- Lines 154-156 of the scan loop: a pending choseong is taken and written
into the current syllable. -/
def applyPending (pending : Option Choseong) (s : Syllable) : Syllable :=
  match pending with
  | some choseong => { s with choseong := choseong }
  | none => s

/-- One iteration of the scan loop for a syllable character, with peeked
`nextc`; returns the emitted code point and the `new_choseong` carry-over. -/
def step (ext : Bool) (pending : Option Choseong) (current : Nat)
    (nextc : Option Nat) : Nat × Option Choseong :=
  let cur := applyPending pending (Syllable.decompose current)
  match nextc with
  | none => (cur.toChar, none)
  | some next =>
    if Syllable.is_one_of_us next = false then (cur.toChar, none)
    else
      let nxt := Syllable.decompose next
      if ¬ additionalCheck cur nxt ∨ ext = true then
        match findRule cur.jongseong nxt.choseong ext RULESET with
        | some e => (Syllable.toChar { cur with jongseong := e.2.1 }, some e.2.2.1)
        | none => (cur.toChar, none)
      else (cur.toChar, none)

/-- The `while let` scan of `pushdown_jongseong_config`. -/
def go (ext : Bool) : Option Choseong → List Nat → List Nat
  | _, [] => []
  | pending, current :: rest =>
    if Syllable.is_one_of_us current = false then
      current :: go ext pending rest
    else
      (step ext pending current rest.head?).1 ::
        go ext (step ext pending current rest.head?).2 rest

/-- `pushdown_jongseong_config`. -/
def pushdown_jongseong_config (source : List Nat) (extended_flag : Bool) :
    List Nat :=
  go extended_flag none source

/-- `pushdown_jongseong`. -/
def pushdown_jongseong (source : List Nat) : List Nat :=
  pushdown_jongseong_config source false

end JongseongPushdown

namespace HorizontalFlip

open Unikorn

/-- Second pass of `flip_chojongseong_horizontally`: each syllable position
takes the next `((choseong, jongseong), jungseong)` pair from the zipped
iterator; other characters are copied.  An exhausted iterator at a syllable
position models the unreachable `.unwrap()` panic. -/
def flipGo : List ((Choseong × Option Jongseong) × Jungseong) → List Nat →
    List Nat
  | _, [] => []
  | pairs, current :: rest =>
    if Syllable.is_one_of_us current = false then
      current :: flipGo pairs rest
    else
      match pairs with
      | [] => []
      | ((choseong, jongseong), jungseong) :: ps =>
          Syllable.toChar ⟨choseong, jungseong, jongseong⟩ :: flipGo ps rest

/-- `flip_chojongseong_horizontally`: collect the (choseong, jongseong) pairs
and the jungseongs of all syllables, reverse the former, zip, and re-emit. -/
def flip_chojongseong_horizontally (source : List Nat) : List Nat :=
  let syllables :=
    (source.filter (fun c => Syllable.is_one_of_us c)).map Syllable.decompose
  let chojongseong := syllables.map (fun s => (s.choseong, s.jongseong))
  let jungseong := syllables.map (fun s => s.jungseong)
  flipGo (chojongseong.reverse.zip jungseong) source

end HorizontalFlip

/-- The first entry of `l` satisfying `P` is `x`: some position holds `x`,
`x` satisfies `P`, and every earlier position fails `P`.  Used to state the
first-match-wins selection policy of the rule tables. -/
def FirstEligible {α : Type} (P : α → Prop) (l : List α) (x : α) : Prop :=
  ∃ i : Fin l.length, l.get i = x ∧ P x ∧
    ∀ j : Fin l.length, (j : Nat) < (i : Nat) → ¬ P (l.get j)

instance {α : Type} (P : α → Prop) [DecidablePred P] [DecidableEq α]
    (l : List α) (x : α) : Decidable (FirstEligible P l x) := by
  unfold FirstEligible; infer_instance

namespace ChoseongPullup

open Unikorn

/-- The pending flag at the start of each loop iteration (one entry per input
character), for claims about the carry-over state. -/
def states (ext : Bool) : Bool → List Nat → List Bool
  | _, [] => []
  | pulled, current :: rest =>
    if Syllable.is_one_of_us current = false then
      pulled :: states ext pulled rest
    else
      pulled :: states ext (step ext pulled current rest.head?).2 rest

/-- Adjacent syllable pair on which some `is_extended` entry of the pull-up
table has its trigger met. -/
def extTrigger (c d : Nat) : Prop :=
  Syllable.is_one_of_us c = true ∧ Syllable.is_one_of_us d = true ∧
    ∃ e ∈ RULESET, e.2.2.2 = true ∧
      e.1 = (Syllable.decompose c).jongseong ∧
      e.2.1 = (Syllable.decompose d).choseong

instance (c d : Nat) : Decidable (extTrigger c d) := by
  unfold extTrigger; infer_instance

end ChoseongPullup

namespace JongseongPushdown

open Unikorn

/-- The `new_choseong` carry-over at the start of each loop iteration. -/
def states (ext : Bool) : Option Choseong → List Nat → List (Option Choseong)
  | _, [] => []
  | pending, current :: rest =>
    if Syllable.is_one_of_us current = false then
      pending :: states ext pending rest
    else
      pending :: states ext (step ext pending current rest.head?).2 rest

/-- Adjacent syllable pair on which extended mode can behave differently:
either some `is_extended` entry of the push-down table has its trigger met, or
the pair falls under the additional extended ruleset check (the palatalization
guard). -/
def extTrigger (c d : Nat) : Prop :=
  Syllable.is_one_of_us c = true ∧ Syllable.is_one_of_us d = true ∧
    ((∃ e ∈ RULESET, e.2.2.2 = true ∧
        e.1 = (Syllable.decompose c).jongseong ∧
        (Syllable.decompose d).choseong = Choseong.Ieung) ∨
      additionalCheck (Syllable.decompose c) (Syllable.decompose d))

instance (c d : Nat) : Decidable (extTrigger c d) := by
  unfold extTrigger; infer_instance

end JongseongPushdown

namespace Unikorn

lemma choseong_ofNat_toNat (x : Choseong) : Choseong.ofNat? x.toNat = some x := by
  cases x <;> rfl

lemma choseong_toNat_lt (x : Choseong) : x.toNat < 19 := by
  cases x <;> decide

lemma choseong_toNat_inj {x y : Choseong} (h : x.toNat = y.toNat) : x = y := by
  have := choseong_ofNat_toNat x
  rw [h, choseong_ofNat_toNat y] at this
  exact (Option.some_inj.mp this).symm

lemma choseong_ofNat_map (k : Nat) (h : k < 19) :
    (Choseong.ofNat? k).map Choseong.toNat = some k := by
  revert k h; decide

lemma jungseong_ofNat_toNat (x : Jungseong) : Jungseong.ofNat? x.toNat = some x := by
  cases x <;> rfl

lemma jungseong_toNat_lt (x : Jungseong) : x.toNat < 21 := by
  cases x <;> decide

lemma jungseong_toNat_inj {x y : Jungseong} (h : x.toNat = y.toNat) : x = y := by
  have := jungseong_ofNat_toNat x
  rw [h, jungseong_ofNat_toNat y] at this
  exact (Option.some_inj.mp this).symm

lemma jungseong_ofNat_map (k : Nat) (h : k < 21) :
    (Jungseong.ofNat? k).map Jungseong.toNat = some k := by
  revert k h; decide

lemma jongseong_ofNat_toNat (x : Jongseong) : Jongseong.ofNat? x.toNat = some x := by
  cases x <;> rfl

lemma jongseong_toNat_lt (x : Jongseong) : x.toNat < 28 := by
  cases x <;> decide

lemma jongseong_toNat_pos (x : Jongseong) : 1 ≤ x.toNat := by
  cases x <;> decide

/-- The optional-final slot value used by composition. -/
def jongVal (jongseong : Option Jongseong) : Nat :=
  match jongseong with
  | some j => j.toNat
  | none => 0

lemma jongVal_ofNat (k : Nat) (h : k < 28) : jongVal (Jongseong.ofNat? k) = k := by
  revert k h; decide

lemma jongVal_lt (jongseong : Option Jongseong) : jongVal jongseong < 28 := by
  cases jongseong with
  | none => decide
  | some j => exact jongseong_toNat_lt j

lemma Syllable.toChar_eq (s : Syllable) :
    s.toChar = 0xAC00 + s.choseong.toNat * 588 + s.jungseong.toNat * 28
      + jongVal s.jongseong := by
  cases hj : s.jongseong <;>
    simp [Syllable.toChar, jongVal, hj, Nat.mul_assoc]

lemma Syllable.toChar_in_range (s : Syllable) :
    0xAC00 ≤ s.toChar ∧ s.toChar ≤ 0xD7A3 := by
  rw [Syllable.toChar_eq]
  have h1 := choseong_toNat_lt s.choseong
  have h2 := jungseong_toNat_lt s.jungseong
  have h3 := jongVal_lt s.jongseong
  omega

/-- In-range decomposition: `try_from` succeeds and returns exactly the
fixed-radix digits of the offset, and recomposition restores the
character. -/
lemma try_from_eq_ok (c : Nat) (h1 : 0xAC00 ≤ c) (h2 : c ≤ 0xD7A3) :
    ∃ s : Syllable,
      Syllable.try_from c = .ok s ∧
      s.choseong.toNat = (c - 0xAC00) / (28 * 21) ∧
      s.jungseong.toNat = ((c - 0xAC00) / 28) % 21 ∧
      s.jongseong = Jongseong.ofNat? ((c - 0xAC00) % 28) ∧
      s.toChar = c := by
  have hio : Syllable.is_one_of_us c = true := by
    simp only [Syllable.is_one_of_us, decide_eq_true_eq]
    exact ⟨h1, h2⟩
  have hcond : ¬ (Syllable.is_one_of_us c = false) := by rw [hio]; simp
  simp only [Syllable.try_from, if_neg hcond]
  obtain ⟨n, hn⟩ : ∃ n, n = c - 0xAC00 := ⟨_, rfl⟩
  rw [← hn]
  have hn11 : n ≤ 11171 := by omega
  have ejung : (n - n % 28) / 28 % 21 = n / 28 % 21 := by
    have e : n - n % 28 = 28 * (n / 28) := by omega
    rw [e, Nat.mul_div_cancel_left _ (by norm_num)]
  have echo : (n - n % 28 - n / 28 % 21 * 28) / (21 * 28) = n / (28 * 21) := by
    have e1 : n - n % 28 = 28 * (n / 28) := by omega
    have e2 : n / 28 / 21 = n / (28 * 21) := Nat.div_div_eq_div_mul n 28 21
    have e3 : 28 * (n / 28) - n / 28 % 21 * 28 = (21 * 28) * (n / 28 / 21) := by
      omega
    rw [e1, e3, Nat.mul_div_cancel_left _ (by norm_num), e2]
  have hcho : n / (28 * 21) < 19 := by omega
  have hjung : n / 28 % 21 < 21 := Nat.mod_lt _ (by norm_num)
  obtain ⟨cho, hchoEq, hchoNat⟩ :
      ∃ x, Choseong.ofNat? (n / (28 * 21)) = some x ∧ x.toNat = n / (28 * 21) := by
    have := choseong_ofNat_map _ hcho
    cases hx : Choseong.ofNat? (n / (28 * 21)) with
    | none => rw [hx] at this; simp at this
    | some x =>
        rw [hx] at this
        exact ⟨x, rfl, by simpa using this⟩
  obtain ⟨jung, hjungEq, hjungNat⟩ :
      ∃ x, Jungseong.ofNat? (n / 28 % 21) = some x ∧ x.toNat = n / 28 % 21 := by
    have := jungseong_ofNat_map _ hjung
    cases hx : Jungseong.ofNat? (n / 28 % 21) with
    | none => rw [hx] at this; simp at this
    | some x =>
        rw [hx] at this
        exact ⟨x, rfl, by simpa using this⟩
  refine ⟨⟨cho, jung, Jongseong.ofNat? (n % 28)⟩, ?_, ?_, ?_, ?_, ?_⟩
  · rw [ejung, echo, hchoEq, hjungEq]
  · exact hchoNat
  · exact hjungNat
  · rfl
  · rw [Syllable.toChar_eq]
    simp only [hchoNat, hjungNat]
    rw [jongVal_ofNat (n % 28) (Nat.mod_lt _ (by norm_num))]
    omega

/-- Recomposition then decomposition is the identity on `Syllable`. -/
lemma try_from_toChar (s : Syllable) : Syllable.try_from s.toChar = .ok s := by
  obtain ⟨hlo, hhi⟩ := Syllable.toChar_in_range s
  obtain ⟨t, hok, hcho, hjung, hjong, hchar⟩ := try_from_eq_ok s.toChar hlo hhi
  have hn : s.toChar - 0xAC00
      = s.choseong.toNat * 588 + s.jungseong.toNat * 28 + jongVal s.jongseong := by
    rw [Syllable.toChar_eq]; omega
  have hc := choseong_toNat_lt s.choseong
  have hj := jungseong_toNat_lt s.jungseong
  have hd := jongVal_lt s.jongseong
  have echo : (s.toChar - 0xAC00) / (28 * 21) = s.choseong.toNat := by
    rw [hn]; omega
  have ejung : (s.toChar - 0xAC00) / 28 % 21 = s.jungseong.toNat := by
    rw [hn]; omega
  have ejong : (s.toChar - 0xAC00) % 28 = jongVal s.jongseong := by
    rw [hn]; omega
  have ht : t = s := by
    obtain ⟨tc, tj, tg⟩ := t
    obtain ⟨sc, sj, sg⟩ := s
    simp only at hcho hjung hjong echo ejung ejong
    refine congrArg₂ (fun a b => Syllable.mk a b.1 b.2) ?_ (congrArg₂ Prod.mk ?_ ?_)
    · exact choseong_toNat_inj (by rw [hcho, echo])
    · exact jungseong_toNat_inj (by rw [hjung, ejung])
    · rw [hjong, ejong]
      cases sg with
      | none => rfl
      | some g => exact jongseong_ofNat_toNat g
  rw [ht] at hok; exact hok

/-- Out-of-range decomposition returns the `NonKorean` error. -/
lemma try_from_out_of_range (c : Nat) (h : ¬ (0xAC00 ≤ c ∧ c ≤ 0xD7A3)) :
    Syllable.try_from c = .error (.NonKorean c) := by
  have hio : Syllable.is_one_of_us c = false := by
    simp only [Syllable.is_one_of_us, decide_eq_false_iff_not]
    exact h
  simp [Syllable.try_from, hio]

lemma jongseong_ofNat_map (k : Nat) (h1 : 1 ≤ k) (h2 : k < 28) :
    (Jongseong.ofNat? k).map Jongseong.toNat = some k := by
  revert k h1 h2; decide

end Unikorn

open Unikorn in
/-- C1: the syllable codec is a bijection between the code points
U+AC00 ..= U+D7A3 and `Syllable` triples: in-range decomposition succeeds and
recomposition restores the character, decomposing a composed syllable returns
it, and out-of-range decomposition returns the `NonKorean` error. -/
theorem claim_C1 :
    (∀ c : Nat, 0xAC00 ≤ c → c ≤ 0xD7A3 →
      ∃ s : Syllable, Syllable.try_from c = .ok s ∧ s.toChar = c) ∧
    (∀ s : Syllable, Syllable.try_from s.toChar = .ok s) ∧
    (∀ c : Nat, ¬ (0xAC00 ≤ c ∧ c ≤ 0xD7A3) →
      Syllable.try_from c = .error (.NonKorean c)) := by
  refine ⟨?_, try_from_toChar, try_from_out_of_range⟩
  intro c h1 h2
  obtain ⟨s, hok, _, _, _, hchar⟩ := try_from_eq_ok c h1 h2
  exact ⟨s, hok, hchar⟩

open Unikorn in
/-- Witness for C1 at the concrete code points U+AC00 (in range) and
U+0041 (out of range). -/
theorem claim_C1_witness :
    (∃ s : Syllable, Syllable.try_from 0xAC00 = .ok s ∧ s.toChar = 0xAC00) ∧
    Syllable.try_from 0x41 = .error (.NonKorean 0x41) :=
  ⟨claim_C1.1 0xAC00 (by decide) (by decide), claim_C1.2.2 0x41 (by decide)⟩

open Unikorn in
/-- C6: in-range decomposition computes exactly the fixed-radix digits of
`offset = c - 0xAC00` (final = offset mod 28, mapped to `none` when 0 and to
the final consonant with discriminant equal to it when at least 1; vowel =
(offset / 28) mod 21; initial = offset / (28 * 21)); composition is the
inverse positional formula and always lands back in the syllable range. -/
theorem claim_C6 :
    (∀ c : Nat, 0xAC00 ≤ c → c ≤ 0xD7A3 →
      ∃ s : Syllable, Syllable.try_from c = .ok s ∧
        s.choseong.toNat = (c - 0xAC00) / (28 * 21) ∧
        s.jungseong.toNat = (c - 0xAC00) / 28 % 21 ∧
        ((c - 0xAC00) % 28 = 0 → s.jongseong = none) ∧
        (1 ≤ (c - 0xAC00) % 28 →
          ∃ j : Jongseong, s.jongseong = some j ∧ j.toNat = (c - 0xAC00) % 28)) ∧
    (∀ s : Syllable,
      s.toChar = 0xAC00 + s.choseong.toNat * 21 * 28 + s.jungseong.toNat * 28
          + jongVal s.jongseong ∧
      Syllable.is_one_of_us s.toChar = true) := by
  constructor
  · intro c h1 h2
    obtain ⟨s, hok, hcho, hjung, hjong, _⟩ := try_from_eq_ok c h1 h2
    refine ⟨s, hok, hcho, hjung, ?_, ?_⟩
    · intro h0
      rw [hjong, h0]; rfl
    · intro h1'
      have h2' : (c - 0xAC00) % 28 < 28 := Nat.mod_lt _ (by norm_num)
      have := jongseong_ofNat_map _ h1' h2'
      cases hx : Jongseong.ofNat? ((c - 0xAC00) % 28) with
      | none => rw [hx] at this; simp at this
      | some j =>
          rw [hx] at this
          exact ⟨j, by rw [hjong, hx], by simpa using this⟩
  · intro s
    refine ⟨by rw [Syllable.toChar_eq]; ring, ?_⟩
    have := Syllable.toChar_in_range s
    simp only [Syllable.is_one_of_us, decide_eq_true_eq]
    exact this

namespace ChoseongPullup

open Unikorn

lemma pullup_go_length (ext : Bool) : ∀ (pulled : Bool) (l : List Nat),
    (go ext pulled l).length = l.length := by
  intro pulled l
  induction l generalizing pulled with
  | nil => rfl
  | cons c t ih =>
      cases hc : Syllable.is_one_of_us c <;> simp [go, hc, ih]

lemma pullup_go_skip (ext pulled : Bool) (c : Nat) (rest : List Nat)
    (h : Syllable.is_one_of_us c = false) :
    go ext pulled (c :: rest) = c :: go ext pulled rest := by
  simp [go, h]

lemma pullup_go_skip_run (ext pulled : Bool) : ∀ (run rest : List Nat),
    (∀ c ∈ run, Syllable.is_one_of_us c = false) →
    go ext pulled (run ++ rest) = run ++ go ext pulled rest := by
  intro run rest h
  induction run with
  | nil => rfl
  | cons c t ih =>
      rw [List.cons_append, pullup_go_skip ext pulled c _ (h c (by simp)),
        ih (fun d hd => h d (by simp [hd]))]
      rfl

end ChoseongPullup

namespace JongseongPushdown

open Unikorn

lemma pushdown_go_length (ext : Bool) : ∀ (pending : Option Choseong) (l : List Nat),
    (go ext pending l).length = l.length := by
  intro pending l
  induction l generalizing pending with
  | nil => rfl
  | cons c t ih =>
      cases hc : Syllable.is_one_of_us c <;> simp [go, hc, ih]

lemma pushdown_go_skip (ext : Bool) (pending : Option Choseong) (c : Nat)
    (rest : List Nat) (h : Syllable.is_one_of_us c = false) :
    go ext pending (c :: rest) = c :: go ext pending rest := by
  simp [go, h]

lemma pushdown_go_skip_run (ext : Bool) (pending : Option Choseong) :
    ∀ (run rest : List Nat),
    (∀ c ∈ run, Syllable.is_one_of_us c = false) →
    go ext pending (run ++ rest) = run ++ go ext pending rest := by
  intro run rest h
  induction run with
  | nil => rfl
  | cons c t ih =>
      rw [List.cons_append, pushdown_go_skip ext pending c _ (h c (by simp)),
        ih (fun d hd => h d (by simp [hd]))]
      rfl

end JongseongPushdown

namespace HorizontalFlip

open Unikorn

lemma flipGo_length : ∀ (l : List Nat)
    (pairs : List ((Choseong × Option Jongseong) × Jungseong)),
    (l.filter (fun c => Syllable.is_one_of_us c)).length ≤ pairs.length →
    (flipGo pairs l).length = l.length := by
  intro l
  induction l with
  | nil => intro pairs _; rfl
  | cons c t ih =>
      intro pairs h
      cases hc : Syllable.is_one_of_us c with
      | false =>
          rw [List.filter_cons_of_neg (by simp [hc])] at h
          simp [flipGo, hc, ih pairs h]
      | true =>
          rw [List.filter_cons_of_pos (by simp [hc])] at h
          cases pairs with
          | nil => simp at h
          | cons p ps =>
              obtain ⟨⟨cho, jong⟩, jung⟩ := p
              simpa [flipGo, hc] using ih ps (by simpa using h)

lemma flip_length (l : List Nat) :
    (flip_chojongseong_horizontally l).length = l.length := by
  apply flipGo_length
  simp

end HorizontalFlip

open Unikorn ChoseongPullup JongseongPushdown HorizontalFlip in
/-- C7: every transform emits exactly one code point per input code point, so
output length equals input length for pull-up, push-down (in both modes) and
the horizontal flip. -/
theorem claim_C7 :
    ∀ (s : List Nat) (ext : Bool),
      (pullup_choseong_config s ext).length = s.length ∧
      (pullup_choseong s).length = s.length ∧
      (pushdown_jongseong_config s ext).length = s.length ∧
      (pushdown_jongseong s).length = s.length ∧
      (flip_chojongseong_horizontally s).length = s.length := by
  intro s ext
  exact ⟨ChoseongPullup.pullup_go_length ext false s, ChoseongPullup.pullup_go_length false false s,
    JongseongPushdown.pushdown_go_length ext none s, JongseongPushdown.pushdown_go_length false none s,
    HorizontalFlip.flip_length s⟩

open Unikorn ChoseongPullup JongseongPushdown in
/-- C5: a scan step on a non-syllable character emits it unchanged and passes
the carry-over state through untouched, in both transducers; consequently the
pending state survives any run of non-Hangul characters unchanged. -/
theorem claim_C5 :
    ∀ (ext pulled : Bool) (pending : Option Choseong),
      (∀ (c : Nat) (rest : List Nat), Syllable.is_one_of_us c = false →
        ChoseongPullup.go ext pulled (c :: rest) =
          c :: ChoseongPullup.go ext pulled rest ∧
        JongseongPushdown.go ext pending (c :: rest) =
          c :: JongseongPushdown.go ext pending rest) ∧
      (∀ (run rest : List Nat),
        (∀ c ∈ run, Syllable.is_one_of_us c = false) →
        ChoseongPullup.go ext pulled (run ++ rest) =
          run ++ ChoseongPullup.go ext pulled rest ∧
        JongseongPushdown.go ext pending (run ++ rest) =
          run ++ JongseongPushdown.go ext pending rest) := by
  intro ext pulled pending
  constructor
  · intro c rest h
    exact ⟨ChoseongPullup.pullup_go_skip ext pulled c rest h,
      JongseongPushdown.pushdown_go_skip ext pending c rest h⟩
  · intro run rest h
    exact ⟨ChoseongPullup.pullup_go_skip_run ext pulled run rest h,
      JongseongPushdown.pushdown_go_skip_run ext pending run rest h⟩

open Unikorn ChoseongPullup JongseongPushdown in
/-- Witness for C5: the pending flag set after a pull survives a space and an
exclamation mark. -/
theorem claim_C5_witness :
    ChoseongPullup.go false true ([0x20, 0x21] ++ [0xAC00]) =
      [0x20, 0x21] ++ ChoseongPullup.go false true [0xAC00] ∧
    JongseongPushdown.go false (some Choseong.Kiyeok) ([0x20, 0x21] ++ [0xAC00]) =
      [0x20, 0x21] ++ JongseongPushdown.go false (some Choseong.Kiyeok) [0xAC00] :=
  (claim_C5 false true (some Choseong.Kiyeok)).2 [0x20, 0x21] [0xAC00]
    (by decide)

open Unikorn ChoseongPullup JongseongPushdown HorizontalFlip in
/-- C9: the ordinary-mode end-to-end vectors from the spec, on the code point
sequences of the strings involved. -/
theorem claim_C9 :
    pullup_choseong [0xCD08, 0xC131, 0x20, 0xC62C, 0xB824, 0x20, 0xC4F0, 0xAE30] =
      [0xCD1B, 0xC5C9, 0x20, 0xC62C, 0xB824, 0x20, 0xC4F1, 0xC774] ∧
    pullup_choseong
      [0xC774, 0xBD88, 0x20, 0xBC16, 0xC740, 0x20, 0xC704, 0xD5D8, 0xD574, 0x21] =
      [0xC785, 0xC6B8, 0x20, 0xBC16, 0xC740, 0x20, 0xC704, 0xD5D8, 0xD574, 0x21] ∧
    pushdown_jongseong
      [0xC785, 0xC6B8, 0x20, 0xBC16, 0xC740, 0x20, 0xC704, 0xD5D8, 0xD574, 0x21] =
      [0xC774, 0xBD88, 0x20, 0xBC14, 0xB048, 0x20, 0xC704, 0xD5D8, 0xD574, 0x21] ∧
    pushdown_jongseong (pullup_choseong
      [0xC774, 0xBD88, 0x20, 0xBC16, 0xC740, 0x20, 0xC704, 0xD5D8, 0xD574, 0x21]) =
      [0xC774, 0xBD88, 0x20, 0xBC14, 0xB048, 0x20, 0xC704, 0xD5D8, 0xD574, 0x21] ∧
    flip_chojongseong_horizontally
      [0xC544, 0xBB34, 0xB9D0, 0x20, 0xB300, 0xC794, 0xCE58] =
      [0xCC28, 0xC900, 0xB2E4, 0x20, 0xB9EC, 0xB9C8, 0xC774] := by
  refine ⟨by decide, by decide, by decide, by decide, by decide⟩

open Unikorn in
/-- Witness for C6 at U+AC01 (offset 1: final index 1) and U+AC00
(offset 0: no final). -/
theorem claim_C6_witness :
    (∃ s : Syllable, Syllable.try_from 0xAC01 = .ok s ∧
      s.choseong.toNat = (0xAC01 - 0xAC00) / (28 * 21) ∧
      s.jungseong.toNat = (0xAC01 - 0xAC00) / 28 % 21 ∧
      ((0xAC01 - 0xAC00) % 28 = 0 → s.jongseong = none) ∧
      (1 ≤ (0xAC01 - 0xAC00) % 28 →
        ∃ j : Jongseong, s.jongseong = some j ∧
          j.toNat = (0xAC01 - 0xAC00) % 28)) ∧
    Syllable.is_one_of_us (Syllable.toChar ⟨.Kiyeok, .A, none⟩) = true :=
  ⟨claim_C6.1 0xAC01 (by decide) (by decide),
   (claim_C6.2 ⟨.Kiyeok, .A, none⟩).2⟩

namespace ChoseongPullup

open Unikorn

lemma pullup_go_get (ext : Bool) : ∀ (l : List Nat) (pulled : Bool) (i c : Nat),
    l[i]? = some c → Syllable.is_one_of_us c = false →
    (go ext pulled l)[i]? = some c := by
  intro l
  induction l with
  | nil => intro pulled i c h _; simp at h
  | cons d t ih =>
      intro pulled i c h hc
      cases i with
      | zero =>
          rw [List.getElem?_cons_zero] at h
          obtain rfl : d = c := by injection h
          rw [pullup_go_skip ext pulled d t hc, List.getElem?_cons_zero]
      | succ i =>
          rw [List.getElem?_cons_succ] at h
          cases hd : Syllable.is_one_of_us d with
          | false =>
              rw [pullup_go_skip ext pulled d t hd, List.getElem?_cons_succ]
              exact ih pulled i c h hc
          | true =>
              simp only [go, hd, Bool.true_eq_false, if_false,
                List.getElem?_cons_succ]
              exact ih _ i c h hc

lemma pullup_go_id (ext : Bool) : ∀ (l : List Nat) (pulled : Bool),
    (∀ c ∈ l, Syllable.is_one_of_us c = false) → go ext pulled l = l := by
  intro l
  induction l with
  | nil => intro pulled _; rfl
  | cons d t ih =>
      intro pulled h
      rw [pullup_go_skip ext pulled d t (h d (by simp)),
        ih pulled (fun c hc => h c (by simp [hc]))]

end ChoseongPullup

namespace JongseongPushdown

open Unikorn

lemma pushdown_go_get (ext : Bool) : ∀ (l : List Nat) (pending : Option Choseong)
    (i c : Nat),
    l[i]? = some c → Syllable.is_one_of_us c = false →
    (go ext pending l)[i]? = some c := by
  intro l
  induction l with
  | nil => intro pending i c h _; simp at h
  | cons d t ih =>
      intro pending i c h hc
      cases i with
      | zero =>
          rw [List.getElem?_cons_zero] at h
          obtain rfl : d = c := by injection h
          rw [pushdown_go_skip ext pending d t hc, List.getElem?_cons_zero]
      | succ i =>
          rw [List.getElem?_cons_succ] at h
          cases hd : Syllable.is_one_of_us d with
          | false =>
              rw [pushdown_go_skip ext pending d t hd, List.getElem?_cons_succ]
              exact ih pending i c h hc
          | true =>
              simp only [go, hd, Bool.true_eq_false, if_false,
                List.getElem?_cons_succ]
              exact ih _ i c h hc

lemma pushdown_go_id (ext : Bool) : ∀ (l : List Nat) (pending : Option Choseong),
    (∀ c ∈ l, Syllable.is_one_of_us c = false) → go ext pending l = l := by
  intro l
  induction l with
  | nil => intro pending _; rfl
  | cons d t ih =>
      intro pending h
      rw [pushdown_go_skip ext pending d t (h d (by simp)),
        ih pending (fun c hc => h c (by simp [hc]))]

end JongseongPushdown

namespace HorizontalFlip

open Unikorn

lemma flipGo_get : ∀ (l : List Nat)
    (pairs : List ((Choseong × Option Jongseong) × Jungseong)) (i c : Nat),
    (l.filter (fun x => Syllable.is_one_of_us x)).length ≤ pairs.length →
    l[i]? = some c → Syllable.is_one_of_us c = false →
    (flipGo pairs l)[i]? = some c := by
  intro l
  induction l with
  | nil => intro pairs i c _ h _; simp at h
  | cons d t ih =>
      intro pairs i c hlen h hc
      cases i with
      | zero =>
          rw [List.getElem?_cons_zero] at h
          obtain rfl : d = c := by injection h
          simp [flipGo, hc]
      | succ i =>
          rw [List.getElem?_cons_succ] at h
          cases hd : Syllable.is_one_of_us d with
          | false =>
              rw [List.filter_cons_of_neg (by simp [hd])] at hlen
              simp only [flipGo, hd, eq_self_iff_true, if_true,
                List.getElem?_cons_succ]
              exact ih pairs i c hlen h hc
          | true =>
              rw [List.filter_cons_of_pos (by simp [hd])] at hlen
              cases pairs with
              | nil => simp at hlen
              | cons p ps =>
                  obtain ⟨⟨cho, jong⟩, jung⟩ := p
                  simp only [flipGo, hd, Bool.true_eq_false, if_false,
                    List.getElem?_cons_succ]
                  exact ih ps i c (by simpa using hlen) h hc

lemma flipGo_id : ∀ (l : List Nat)
    (pairs : List ((Choseong × Option Jongseong) × Jungseong)),
    (∀ c ∈ l, Syllable.is_one_of_us c = false) → flipGo pairs l = l := by
  intro l
  induction l with
  | nil => intro pairs _; rfl
  | cons d t ih =>
      intro pairs h
      have hd := h d (by simp)
      simp only [flipGo, hd, eq_self_iff_true, if_true]
      rw [ih pairs (fun c hc => h c (by simp [hc]))]

end HorizontalFlip

open Unikorn ChoseongPullup JongseongPushdown HorizontalFlip in
/-- C8: a character failing the syllable range test is copied verbatim to the
same position by every transform, and a string with no Hangul syllables is
returned unchanged by every entry point. -/
theorem claim_C8 :
    (∀ (s : List Nat) (ext : Bool) (i c : Nat),
      s[i]? = some c → Syllable.is_one_of_us c = false →
      (pullup_choseong_config s ext)[i]? = some c ∧
      (pushdown_jongseong_config s ext)[i]? = some c ∧
      (flip_chojongseong_horizontally s)[i]? = some c) ∧
    (∀ (s : List Nat) (ext : Bool),
      (∀ c ∈ s, Syllable.is_one_of_us c = false) →
      pullup_choseong s = s ∧ pullup_choseong_config s ext = s ∧
      pushdown_jongseong s = s ∧ pushdown_jongseong_config s ext = s ∧
      flip_chojongseong_horizontally s = s) := by
  constructor
  · intro s ext i c h hc
    refine ⟨ChoseongPullup.pullup_go_get ext s false i c h hc,
      JongseongPushdown.pushdown_go_get ext s none i c h hc,
      HorizontalFlip.flipGo_get s _ i c ?_ h hc⟩
    simp
  · intro s ext h
    exact ⟨ChoseongPullup.pullup_go_id false s false h, ChoseongPullup.pullup_go_id ext s false h,
      JongseongPushdown.pushdown_go_id false s none h, JongseongPushdown.pushdown_go_id ext s none h,
      HorizontalFlip.flipGo_id s _ h⟩

open Unikorn ChoseongPullup JongseongPushdown HorizontalFlip in
/-- Witness for C8: an exclamation mark inside a Hangul string is copied
verbatim, and an all-ASCII string is returned unchanged. -/
theorem claim_C8_witness :
    ((pullup_choseong_config [0xAC00, 0x21, 0xAC00] false)[1]? = some 0x21 ∧
      (pushdown_jongseong_config [0xAC00, 0x21, 0xAC00] false)[1]? = some 0x21 ∧
      (flip_chojongseong_horizontally [0xAC00, 0x21, 0xAC00])[1]? = some 0x21) ∧
    (pullup_choseong [0x68, 0x69] = [0x68, 0x69] ∧
      pullup_choseong_config [0x68, 0x69] true = [0x68, 0x69] ∧
      pushdown_jongseong [0x68, 0x69] = [0x68, 0x69] ∧
      pushdown_jongseong_config [0x68, 0x69] true = [0x68, 0x69] ∧
      flip_chojongseong_horizontally [0x68, 0x69] = [0x68, 0x69]) :=
  ⟨claim_C8.1 [0xAC00, 0x21, 0xAC00] false 1 0x21 (by decide) (by decide),
   claim_C8.2 [0x68, 0x69] true (by decide)⟩

namespace JongseongPushdown

open Unikorn

lemma applyPending_jongseong (pending : Option Choseong) (s : Syllable) :
    (applyPending pending s).jongseong = s.jongseong := by
  cases pending <;> rfl

lemma additionalCheck_applyPending (pending : Option Choseong)
    (s t : Syllable) :
    additionalCheck (applyPending pending s) t ↔ additionalCheck s t := by
  cases pending <;> exact Iff.rfl

end JongseongPushdown

open Unikorn JongseongPushdown in
/-- C3: on an adjacent syllable pair whose current final is Tikeut or Thieuth
and whose next medial is an iotated vowel, ordinary-mode push-down applies no
rule (the emitted character only reflects the incoming pending initial, and no
pending initial is produced), while extended mode proceeds to the ordinary
rule lookup; concretely on the spec's suppression-guard vectors. -/
theorem claim_C3 :
    (∀ (pending : Option Choseong) (c d : Nat),
      Syllable.is_one_of_us c = true → Syllable.is_one_of_us d = true →
      additionalCheck (Syllable.decompose c) (Syllable.decompose d) →
      JongseongPushdown.step false pending c (some d) =
        ((applyPending pending (Syllable.decompose c)).toChar, none) ∧
      JongseongPushdown.step true pending c (some d) =
        (match findRule (applyPending pending (Syllable.decompose c)).jongseong
            (Syllable.decompose d).choseong true RULESET with
         | some e =>
            (Syllable.toChar
              { applyPending pending (Syllable.decompose c) with
                jongseong := e.2.1 }, some e.2.2.1)
         | none =>
            ((applyPending pending (Syllable.decompose c)).toChar, none))) ∧
    pushdown_jongseong
      [0xD574, 0xB3CB, 0xC774, 0x20, 0xB3CB, 0xC544, 0x20, 0xB2E4, 0xAC19,
       0xC774, 0x20, 0xAC19, 0xC544] =
      [0xD574, 0xB3CB, 0xC774, 0x20, 0xB3C4, 0xB2E4, 0x20, 0xB2E4, 0xAC19,
       0xC774, 0x20, 0xAC00, 0xD0C0] ∧
    pushdown_jongseong_config
      [0xD574, 0xB3CB, 0xC774, 0x20, 0xB3CB, 0xC544, 0x20, 0xB2E4, 0xAC19,
       0xC774, 0x20, 0xAC19, 0xC544] true =
      [0xD574, 0xB3C4, 0xB514, 0x20, 0xB3C4, 0xB2E4, 0x20, 0xB2E4, 0xAC00,
       0xD2F0, 0x20, 0xAC00, 0xD0C0] := by
  refine ⟨?_, by decide, by decide⟩
  intro pending c d _ hd hA
  have hA' : additionalCheck (applyPending pending (Syllable.decompose c))
      (Syllable.decompose d) :=
    (additionalCheck_applyPending pending _ _).mpr hA
  constructor
  · simp only [JongseongPushdown.step, hd, Bool.true_eq_false, if_false]
    rw [if_neg]
    push_neg
    exact ⟨hA', by decide⟩
  · simp only [JongseongPushdown.step, hd, Bool.true_eq_false, if_false]
    rw [if_pos (Or.inr trivial)]

open Unikorn JongseongPushdown in
/-- Witness for C3 on the pair (U+B3CB, U+C774): final Tikeut before medial I
is left alone in ordinary mode and pushed down in extended mode. -/
theorem claim_C3_witness :
    JongseongPushdown.step false none 0xB3CB (some 0xC774) =
      ((applyPending none (Syllable.decompose 0xB3CB)).toChar, none) ∧
    JongseongPushdown.step true none 0xB3CB (some 0xC774) =
      (match findRule (applyPending none (Syllable.decompose 0xB3CB)).jongseong
          (Syllable.decompose 0xC774).choseong true RULESET with
       | some e =>
          (Syllable.toChar
            { applyPending none (Syllable.decompose 0xB3CB) with
              jongseong := e.2.1 }, some e.2.2.1)
       | none =>
          ((applyPending none (Syllable.decompose 0xB3CB)).toChar, none)) :=
  claim_C3.1 none 0xB3CB 0xC774 (by decide) (by decide) (by decide)

namespace ChoseongPullup

open Unikorn

lemma applyPulled_jongseong (pulled : Bool) (s : Syllable) :
    (applyPulled pulled s).jongseong = s.jongseong := by
  cases pulled <;> rfl

/-- The carry-over flag is set only in the branch that has verified the
peeked character to be a Hangul syllable. -/
lemma pullup_step_sets (ext pulled : Bool) (c : Nat) (nxt : Option Nat)
    (h : (step ext pulled c nxt).2 = true) :
    ∃ d, nxt = some d ∧ Syllable.is_one_of_us d = true := by
  cases nxt with
  | none => simp [step] at h
  | some d =>
      refine ⟨d, rfl, ?_⟩
      cases hd : Syllable.is_one_of_us d with
      | true => rfl
      | false => rw [step, hd] at h; simp at h

/-- The outgoing carry-over flag does not depend on the incoming one: an
incoming pull is consumed within its iteration. -/
lemma pullup_step_consumes (ext p q : Bool) (c : Nat) (nxt : Option Nat) :
    (step ext p c nxt).2 = (step ext q c nxt).2 := by
  cases nxt with
  | none => rfl
  | some d =>
      cases hd : Syllable.is_one_of_us d with
      | false => simp [step, hd]
      | true =>
          simp only [step, hd, Bool.true_eq_false, if_false,
            applyPulled_jongseong]
          cases findRule (Syllable.decompose c).jongseong
              (Syllable.decompose d).choseong ext RULESET <;> rfl

/-- Along any run started with the flag clear, an iteration that begins with
the flag set is processing a Hangul syllable character. -/
lemma pullup_states_syllable (ext : Bool) : ∀ (l : List Nat) (p : Bool),
    (p = true → ∃ c t, l = c :: t ∧ Syllable.is_one_of_us c = true) →
    ∀ i : Nat, (states ext p l)[i]? = some true →
    ∃ c, l[i]? = some c ∧ Syllable.is_one_of_us c = true := by
  intro l
  induction l with
  | nil => intro p _ i h; simp [states] at h
  | cons d t ih =>
      intro p hp i h
      cases hd : Syllable.is_one_of_us d with
      | false =>
          simp only [states, hd, eq_self_iff_true, if_true] at h
          cases i with
          | zero =>
              rw [List.getElem?_cons_zero] at h
              obtain rfl : p = true := by injection h
              obtain ⟨c, t', hEq, hc⟩ := hp rfl
              injection hEq with h1 h2
              rw [← h1, hd] at hc
              exact Bool.noConfusion hc
          | succ i =>
              rw [List.getElem?_cons_succ] at h
              have hpf : p = false := by
                cases hpv : p with
                | false => rfl
                | true =>
                    obtain ⟨c, t', hEq, hc⟩ := hp hpv
                    injection hEq with h1 h2
                    rw [← h1, hd] at hc
                    exact Bool.noConfusion hc
              subst hpf
              obtain ⟨c, hc1, hc2⟩ := ih false (by intro h0; cases h0) i h
              exact ⟨c, by rw [List.getElem?_cons_succ]; exact hc1, hc2⟩
      | true =>
          simp only [states, hd, Bool.true_eq_false, if_false] at h
          cases i with
          | zero =>
              exact ⟨d, by rw [List.getElem?_cons_zero], hd⟩
          | succ i =>
              rw [List.getElem?_cons_succ] at h
              have hinv : (step ext p d t.head?).2 = true →
                  ∃ c t', t = c :: t' ∧ Syllable.is_one_of_us c = true := by
                intro hset
                obtain ⟨e, hhead, he⟩ := pullup_step_sets ext p d t.head? hset
                cases t with
                | nil => simp at hhead
                | cons e' t' =>
                    have he2 : e' = e := by
                      simpa [List.head?] using hhead
                    exact ⟨e', t', rfl, by rw [he2]; exact he⟩
              obtain ⟨c, hc1, hc2⟩ := ih (step ext p d t.head?).2 hinv i h
              exact ⟨c, by rw [List.getElem?_cons_succ]; exact hc1, hc2⟩

end ChoseongPullup

namespace JongseongPushdown

open Unikorn

/-- The `new_choseong` carry-over is set only in the branch that has verified
the peeked character to be a Hangul syllable. -/
lemma pushdown_step_sets (ext : Bool) (pending : Option Choseong) (c : Nat)
    (nxt : Option Nat) (ch : Choseong)
    (h : (step ext pending c nxt).2 = some ch) :
    ∃ d, nxt = some d ∧ Syllable.is_one_of_us d = true := by
  cases nxt with
  | none => simp [step] at h
  | some d =>
      refine ⟨d, rfl, ?_⟩
      cases hd : Syllable.is_one_of_us d with
      | true => rfl
      | false => rw [step, hd] at h; simp at h

/-- The outgoing carry-over does not depend on the incoming one. -/
lemma pushdown_step_consumes (ext : Bool) (p q : Option Choseong) (c : Nat)
    (nxt : Option Nat) :
    (step ext p c nxt).2 = (step ext q c nxt).2 := by
  cases nxt with
  | none => rfl
  | some d =>
      cases hd : Syllable.is_one_of_us d with
      | false => simp [step, hd]
      | true =>
          simp only [step, hd, Bool.true_eq_false, if_false]
          by_cases hC : ¬ additionalCheck (Syllable.decompose c)
              (Syllable.decompose d) ∨ ext = true
          · rw [if_pos (by rwa [additionalCheck_applyPending]),
              if_pos (by rwa [additionalCheck_applyPending])]
            simp only [applyPending_jongseong]
            cases findRule (Syllable.decompose c).jongseong
                (Syllable.decompose d).choseong ext RULESET <;> rfl
          · rw [if_neg (by rwa [additionalCheck_applyPending]),
              if_neg (by rwa [additionalCheck_applyPending])]

/-- Along any run started with no pending initial, an iteration that begins
with a pending initial is processing a Hangul syllable character. -/
lemma pushdown_states_syllable (ext : Bool) : ∀ (l : List Nat) (p : Option Choseong),
    ((∃ ch, p = some ch) → ∃ c t, l = c :: t ∧ Syllable.is_one_of_us c = true) →
    ∀ (i : Nat) (ch : Choseong), (states ext p l)[i]? = some (some ch) →
    ∃ c, l[i]? = some c ∧ Syllable.is_one_of_us c = true := by
  intro l
  induction l with
  | nil => intro p _ i ch h; simp [states] at h
  | cons d t ih =>
      intro p hp i ch h
      cases hd : Syllable.is_one_of_us d with
      | false =>
          simp only [states, hd, eq_self_iff_true, if_true] at h
          cases i with
          | zero =>
              rw [List.getElem?_cons_zero] at h
              obtain rfl : p = some ch := by injection h
              obtain ⟨c, t', hEq, hc⟩ := hp ⟨ch, rfl⟩
              injection hEq with h1 h2
              rw [← h1, hd] at hc
              exact Bool.noConfusion hc
          | succ i =>
              rw [List.getElem?_cons_succ] at h
              have hpf : p = none := by
                cases hpv : p with
                | none => rfl
                | some ch' =>
                    obtain ⟨c, t', hEq, hc⟩ := hp ⟨ch', hpv⟩
                    injection hEq with h1 h2
                    rw [← h1, hd] at hc
                    exact Bool.noConfusion hc
              subst hpf
              obtain ⟨c, hc1, hc2⟩ := ih none (by rintro ⟨ch', h0⟩; cases h0) i ch h
              exact ⟨c, by rw [List.getElem?_cons_succ]; exact hc1, hc2⟩
      | true =>
          simp only [states, hd, Bool.true_eq_false, if_false] at h
          cases i with
          | zero =>
              exact ⟨d, by rw [List.getElem?_cons_zero], hd⟩
          | succ i =>
              rw [List.getElem?_cons_succ] at h
              have hinv : (∃ ch', (step ext p d t.head?).2 = some ch') →
                  ∃ c t', t = c :: t' ∧ Syllable.is_one_of_us c = true := by
                rintro ⟨ch', hset⟩
                obtain ⟨e, hhead, he⟩ := pushdown_step_sets ext p d t.head? ch' hset
                cases t with
                | nil => simp at hhead
                | cons e' t' =>
                    have he2 : e' = e := by
                      simpa [List.head?] using hhead
                    exact ⟨e', t', rfl, by rw [he2]; exact he⟩
              obtain ⟨c, hc1, hc2⟩ := ih (step ext p d t.head?).2 hinv i ch h
              exact ⟨c, by rw [List.getElem?_cons_succ]; exact hc1, hc2⟩

end JongseongPushdown

open Unikorn in
/-- C10: the carry-over state is set only after the peeked next character has
been verified to be a Hangul syllable; hence any iteration entered with the
state set (starting from the initial clear state) is processing a Hangul
syllable, and the outgoing state of an iteration never depends on the incoming
one (the pending mutation is consumed immediately, never carried across a
non-Hangul character). -/
theorem claim_C10 :
    (∀ (ext pulled : Bool) (c : Nat) (nxt : Option Nat),
      (ChoseongPullup.step ext pulled c nxt).2 = true →
      ∃ d, nxt = some d ∧ Syllable.is_one_of_us d = true) ∧
    (∀ (ext : Bool) (pending : Option Choseong) (c : Nat) (nxt : Option Nat)
      (ch : Choseong),
      (JongseongPushdown.step ext pending c nxt).2 = some ch →
      ∃ d, nxt = some d ∧ Syllable.is_one_of_us d = true) ∧
    (∀ (ext p q : Bool) (c : Nat) (nxt : Option Nat),
      (ChoseongPullup.step ext p c nxt).2 = (ChoseongPullup.step ext q c nxt).2) ∧
    (∀ (ext : Bool) (p q : Option Choseong) (c : Nat) (nxt : Option Nat),
      (JongseongPushdown.step ext p c nxt).2 =
        (JongseongPushdown.step ext q c nxt).2) ∧
    (∀ (ext : Bool) (l : List Nat) (i : Nat),
      (ChoseongPullup.states ext false l)[i]? = some true →
      ∃ c, l[i]? = some c ∧ Syllable.is_one_of_us c = true) ∧
    (∀ (ext : Bool) (l : List Nat) (i : Nat) (ch : Choseong),
      (JongseongPushdown.states ext none l)[i]? = some (some ch) →
      ∃ c, l[i]? = some c ∧ Syllable.is_one_of_us c = true) := by
  refine ⟨ChoseongPullup.pullup_step_sets, JongseongPushdown.pushdown_step_sets,
    ChoseongPullup.pullup_step_consumes, JongseongPushdown.pushdown_step_consumes, ?_, ?_⟩
  · intro ext l i h
    exact ChoseongPullup.pullup_states_syllable ext l false
      (by intro h0; cases h0) i h
  · intro ext l i ch h
    exact JongseongPushdown.pushdown_states_syllable ext l none
      (by rintro ⟨ch', h0⟩; cases h0) i ch h

open Unikorn in
/-- Witness for C10: a firing pull-up step on the pair (U+CD08, U+C131)
reports its next character as a syllable, and the state trace of the pull-up
vector marks position 1 as entered with the flag set on a syllable. -/
theorem claim_C10_witness :
    (∃ d, (some 0xC131 : Option Nat) = some d ∧
      Syllable.is_one_of_us d = true) ∧
    (∃ c, ([0xCD08, 0xC131] : List Nat)[1]? = some c ∧
      Syllable.is_one_of_us c = true) :=
  ⟨claim_C10.1 false false 0xCD08 (some 0xC131) (by decide),
   claim_C10.2.2.2.2.1 false [0xCD08, 0xC131] 1 (by decide)⟩

namespace ChoseongPullup

open Unikorn

lemma pullup_findRule_some_first (jongseong : Option Jongseong) (choseong : Choseong)
    (ext : Bool) : ∀ (l : List Entry) (x : Entry),
    findRule jongseong choseong ext l = some x →
    FirstEligible (Matches jongseong choseong ext) l x := by
  intro l
  induction l with
  | nil => intro x h; simp [findRule] at h
  | cons e rest ih =>
      intro x h
      rw [findRule] at h
      by_cases hm : Matches jongseong choseong ext e
      · rw [if_pos hm] at h
        obtain rfl : e = x := by injection h
        refine ⟨⟨0, Nat.succ_pos _⟩, rfl, hm, ?_⟩
        intro j hj
        exact absurd hj (Nat.not_lt_zero _)
      · rw [if_neg hm] at h
        obtain ⟨i, hget, hP, hmin⟩ := ih x h
        refine ⟨⟨i.val + 1, Nat.succ_lt_succ i.isLt⟩, by
          rw [List.get_cons_succ]; exact hget, hP, ?_⟩
        intro j hj
        obtain ⟨jv, hjlt⟩ := j
        cases jv with
        | zero => intro hPj; exact hm hPj
        | succ k =>
            rw [List.get_cons_succ]
            exact hmin ⟨k, Nat.lt_of_succ_lt_succ hjlt⟩
              (Nat.lt_of_succ_lt_succ hj)

lemma pullup_findRule_none (jongseong : Option Jongseong) (choseong : Choseong)
    (ext : Bool) : ∀ (l : List Entry),
    findRule jongseong choseong ext l = none →
    ∀ x ∈ l, ¬ Matches jongseong choseong ext x := by
  intro l
  induction l with
  | nil => intro _ x hx; cases hx
  | cons e rest ih =>
      intro h x hx
      rw [findRule] at h
      by_cases hm : Matches jongseong choseong ext e
      · rw [if_pos hm] at h; cases h
      · rw [if_neg hm] at h
        rcases List.mem_cons.mp hx with rfl | hx'
        · exact hm
        · exact ih h x hx'

end ChoseongPullup

namespace JongseongPushdown

open Unikorn

lemma pushdown_findRule_some_first (jongseong : Option Jongseong)
    (nextChoseong : Choseong) (ext : Bool) : ∀ (l : List Entry) (x : Entry),
    findRule jongseong nextChoseong ext l = some x →
    FirstEligible (Matches jongseong nextChoseong ext) l x := by
  intro l
  induction l with
  | nil => intro x h; simp [findRule] at h
  | cons e rest ih =>
      intro x h
      rw [findRule] at h
      by_cases hm : Matches jongseong nextChoseong ext e
      · rw [if_pos hm] at h
        obtain rfl : e = x := by injection h
        refine ⟨⟨0, Nat.succ_pos _⟩, rfl, hm, ?_⟩
        intro j hj
        exact absurd hj (Nat.not_lt_zero _)
      · rw [if_neg hm] at h
        obtain ⟨i, hget, hP, hmin⟩ := ih x h
        refine ⟨⟨i.val + 1, Nat.succ_lt_succ i.isLt⟩, by
          rw [List.get_cons_succ]; exact hget, hP, ?_⟩
        intro j hj
        obtain ⟨jv, hjlt⟩ := j
        cases jv with
        | zero => intro hPj; exact hm hPj
        | succ k =>
            rw [List.get_cons_succ]
            exact hmin ⟨k, Nat.lt_of_succ_lt_succ hjlt⟩
              (Nat.lt_of_succ_lt_succ hj)

lemma pushdown_findRule_none (jongseong : Option Jongseong) (nextChoseong : Choseong)
    (ext : Bool) : ∀ (l : List Entry),
    findRule jongseong nextChoseong ext l = none →
    ∀ x ∈ l, ¬ Matches jongseong nextChoseong ext x := by
  intro l
  induction l with
  | nil => intro _ x hx; cases hx
  | cons e rest ih =>
      intro h x hx
      rw [findRule] at h
      by_cases hm : Matches jongseong nextChoseong ext e
      · rw [if_pos hm] at h; cases h
      · rw [if_neg hm] at h
        rcases List.mem_cons.mp hx with rfl | hx'
        · exact hm
        · exact ih h x hx'

end JongseongPushdown

open Unikorn JongseongPushdown in
/-- C2 fails as stated: on the adjacent syllable pair (U+B3CB, U+C774) with
extended mode off, the first push-down table entry whose trigger matches is
eligible (it would rewrite the current final to none, giving U+B3C4), yet the
transducer leaves the pair unchanged, because the palatalization guard
suppresses the lookup. -/
theorem claim_C2_counterexample :
    FirstEligible (Matches (Syllable.decompose 0xB3CB).jongseong
        (Syllable.decompose 0xC774).choseong false) RULESET
      (some .Tikeut, none, .Tikeut, false) ∧
    Syllable.toChar { Syllable.decompose 0xB3CB with jongseong := none } =
      0xB3C4 ∧
    pushdown_jongseong_config [0xB3CB, 0xC774] false = [0xB3CB, 0xC774] ∧
    (0xB3C4 : Nat) ≠ 0xB3CB := by
  refine ⟨by decide, by decide, by decide, by decide⟩

open Unikorn ChoseongPullup JongseongPushdown in
/-- C2 (amended): the per-pair rewrite is governed by first-match-wins
scanning of the direction's table — unconditionally for pull-up, and for
push-down whenever the palatalization guard does not suppress the lookup
(guard clear or extended mode on).  When the first eligible entry exists the
step applies exactly it; when no entry is eligible the pair is left
unchanged. -/
theorem claim_C2 :
    (∀ (ext pulled : Bool) (c d : Nat),
      Syllable.is_one_of_us c = true → Syllable.is_one_of_us d = true →
      (∃ e : ChoseongPullup.Entry,
        FirstEligible (ChoseongPullup.Matches
            (applyPulled pulled (Syllable.decompose c)).jongseong
            (Syllable.decompose d).choseong ext) ChoseongPullup.RULESET e ∧
        ChoseongPullup.step ext pulled c (some d) =
          (Syllable.toChar { applyPulled pulled (Syllable.decompose c) with
            jongseong := e.2.2.1 }, true)) ∨
      ((∀ e ∈ ChoseongPullup.RULESET,
          ¬ ChoseongPullup.Matches
            (applyPulled pulled (Syllable.decompose c)).jongseong
            (Syllable.decompose d).choseong ext e) ∧
        ChoseongPullup.step ext pulled c (some d) =
          ((applyPulled pulled (Syllable.decompose c)).toChar, false))) ∧
    (∀ (ext : Bool) (pending : Option Choseong) (c d : Nat),
      Syllable.is_one_of_us c = true → Syllable.is_one_of_us d = true →
      (¬ additionalCheck (Syllable.decompose c) (Syllable.decompose d) ∨
        ext = true) →
      (∃ e : JongseongPushdown.Entry,
        FirstEligible (JongseongPushdown.Matches
            (applyPending pending (Syllable.decompose c)).jongseong
            (Syllable.decompose d).choseong ext) JongseongPushdown.RULESET e ∧
        JongseongPushdown.step ext pending c (some d) =
          (Syllable.toChar { applyPending pending (Syllable.decompose c) with
            jongseong := e.2.1 }, some e.2.2.1)) ∨
      ((∀ e ∈ JongseongPushdown.RULESET,
          ¬ JongseongPushdown.Matches
            (applyPending pending (Syllable.decompose c)).jongseong
            (Syllable.decompose d).choseong ext e) ∧
        JongseongPushdown.step ext pending c (some d) =
          ((applyPending pending (Syllable.decompose c)).toChar, none))) := by
  constructor
  · intro ext pulled c d _ hd
    simp only [ChoseongPullup.step, hd, Bool.true_eq_false, if_false]
    cases hf : ChoseongPullup.findRule
        (applyPulled pulled (Syllable.decompose c)).jongseong
        (Syllable.decompose d).choseong ext ChoseongPullup.RULESET with
    | some e =>
        exact Or.inl ⟨e, ChoseongPullup.pullup_findRule_some_first _ _ _ _ e hf, rfl⟩
    | none =>
        exact Or.inr ⟨ChoseongPullup.pullup_findRule_none _ _ _ _ hf, rfl⟩
  · intro ext pending c d _ hd hG
    have hG' : ¬ additionalCheck (applyPending pending (Syllable.decompose c))
        (Syllable.decompose d) ∨ ext = true := by
      rcases hG with hG | hG
      · exact Or.inl (by rwa [additionalCheck_applyPending])
      · exact Or.inr hG
    simp only [JongseongPushdown.step, hd, Bool.true_eq_false, if_false]
    rw [if_pos hG']
    cases hf : JongseongPushdown.findRule
        (applyPending pending (Syllable.decompose c)).jongseong
        (Syllable.decompose d).choseong ext JongseongPushdown.RULESET with
    | some e =>
        exact Or.inl ⟨e, JongseongPushdown.pushdown_findRule_some_first _ _ _ _ e hf, rfl⟩
    | none =>
        exact Or.inr ⟨JongseongPushdown.pushdown_findRule_none _ _ _ _ hf, rfl⟩

open Unikorn ChoseongPullup JongseongPushdown in
/-- Witness for C2 (amended) on the pairs (U+CD08, U+C131) for pull-up and
(U+C785, U+C6B8) for push-down (both syllable pairs; the latter clear of the
guard). -/
theorem claim_C2_witness :
    ((∃ e : ChoseongPullup.Entry,
        FirstEligible (ChoseongPullup.Matches
            (applyPulled false (Syllable.decompose 0xCD08)).jongseong
            (Syllable.decompose 0xC131).choseong false) ChoseongPullup.RULESET e ∧
        ChoseongPullup.step false false 0xCD08 (some 0xC131) =
          (Syllable.toChar { applyPulled false (Syllable.decompose 0xCD08) with
            jongseong := e.2.2.1 }, true)) ∨
      ((∀ e ∈ ChoseongPullup.RULESET,
          ¬ ChoseongPullup.Matches
            (applyPulled false (Syllable.decompose 0xCD08)).jongseong
            (Syllable.decompose 0xC131).choseong false e) ∧
        ChoseongPullup.step false false 0xCD08 (some 0xC131) =
          ((applyPulled false (Syllable.decompose 0xCD08)).toChar, false))) ∧
    ((∃ e : JongseongPushdown.Entry,
        FirstEligible (JongseongPushdown.Matches
            (applyPending none (Syllable.decompose 0xC785)).jongseong
            (Syllable.decompose 0xC6B8).choseong false) JongseongPushdown.RULESET e ∧
        JongseongPushdown.step false none 0xC785 (some 0xC6B8) =
          (Syllable.toChar { applyPending none (Syllable.decompose 0xC785) with
            jongseong := e.2.1 }, some e.2.2.1)) ∨
      ((∀ e ∈ JongseongPushdown.RULESET,
          ¬ JongseongPushdown.Matches
            (applyPending none (Syllable.decompose 0xC785)).jongseong
            (Syllable.decompose 0xC6B8).choseong false e) ∧
        JongseongPushdown.step false none 0xC785 (some 0xC6B8) =
          ((applyPending none (Syllable.decompose 0xC785)).toChar, none))) :=
  ⟨claim_C2.1 false false 0xCD08 0xC131 (by decide) (by decide),
   claim_C2.2 false none 0xC785 0xC6B8 (by decide) (by decide)
     (Or.inl (by decide))⟩

namespace ChoseongPullup

open Unikorn

lemma pullup_findRule_ext_eq (jongseong : Option Jongseong) (choseong : Choseong) :
    ∀ l : List Entry,
    (∀ e ∈ l, e.2.2.2 = true → ¬ (e.1 = jongseong ∧ e.2.1 = choseong)) →
    findRule jongseong choseong false l = findRule jongseong choseong true l := by
  intro l
  induction l with
  | nil => intro _; rfl
  | cons e rest ih =>
      intro h
      by_cases hm : e.1 = jongseong ∧ e.2.1 = choseong
      · cases hx : e.2.2.2 with
        | true => exact absurd hm (h e (by simp) hx)
        | false =>
            rw [findRule, findRule, if_pos ⟨hm.1, hm.2, Or.inl hx⟩,
              if_pos ⟨hm.1, hm.2, Or.inl hx⟩]
      · rw [findRule, findRule,
          if_neg (fun hM => hm ⟨hM.1, hM.2.1⟩),
          if_neg (fun hM => hm ⟨hM.1, hM.2.1⟩)]
        exact ih (fun x hx => h x (by simp [hx]))

/-- On a pair free of extended triggers, the scan step is identical in
ordinary and extended mode (for the same incoming flag). -/
lemma pullup_step_ext_eq (p : Bool) (c : Nat) (nxt : Option Nat)
    (hc : Syllable.is_one_of_us c = true)
    (h : ∀ d, nxt = some d → Syllable.is_one_of_us d = true → ¬ extTrigger c d) :
    step false p c nxt = step true p c nxt := by
  cases nxt with
  | none => rfl
  | some d =>
      cases hd : Syllable.is_one_of_us d with
      | false => simp [step, hd]
      | true =>
          have hkey : findRule (applyPulled p (Syllable.decompose c)).jongseong
                (Syllable.decompose d).choseong false RULESET =
              findRule (applyPulled p (Syllable.decompose c)).jongseong
                (Syllable.decompose d).choseong true RULESET := by
            apply pullup_findRule_ext_eq
            intro e he hx hM
            exact h d rfl hd ⟨hc, hd, e, he, hx, by
              rw [← applyPulled_jongseong p (Syllable.decompose c)]
              exact hM.1, hM.2⟩
          simp only [step, hd, Bool.true_eq_false, if_false, hkey]

/-- Lockstep agreement of the ordinary and extended scans away from extended
triggers. -/
lemma pullup_go_agree : ∀ (l : List Nat) (p₁ p₂ : Bool) (i : Nat),
    (p₁ = true ∨ p₂ = true →
      ∃ c t, l = c :: t ∧ Syllable.is_one_of_us c = true) →
    (i = 0 → p₁ = p₂) →
    (∀ (j c d : Nat), (j = i ∨ j + 1 = i) → l[j]? = some c →
      l[j + 1]? = some d → ¬ extTrigger c d) →
    (go false p₁ l)[i]? = (go true p₂ l)[i]? := by
  intro l
  induction l with
  | nil => intro p₁ p₂ i _ _ _; rfl
  | cons a t ih =>
      intro p₁ p₂ i hinv h0 hT
      cases ha : Syllable.is_one_of_us a with
      | false =>
          have hp₁ : p₁ = false := by
            cases hv : p₁ with
            | false => rfl
            | true =>
                obtain ⟨c, t', hEq, hcs⟩ := hinv (Or.inl hv)
                injection hEq with h1 h2
                rw [← h1, ha] at hcs
                exact Bool.noConfusion hcs
          have hp₂ : p₂ = false := by
            cases hv : p₂ with
            | false => rfl
            | true =>
                obtain ⟨c, t', hEq, hcs⟩ := hinv (Or.inr hv)
                injection hEq with h1 h2
                rw [← h1, ha] at hcs
                exact Bool.noConfusion hcs
          subst hp₁; subst hp₂
          rw [pullup_go_skip false false a t ha, pullup_go_skip true false a t ha]
          cases i with
          | zero => rw [List.getElem?_cons_zero, List.getElem?_cons_zero]
          | succ i' =>
              rw [List.getElem?_cons_succ, List.getElem?_cons_succ]
              refine ih false false i' (by intro hv; cases hv with
                | inl hv => cases hv | inr hv => cases hv) (fun _ => rfl) ?_
              intro j c d hj hc hd
              refine hT (j + 1) c d ?_ ?_ ?_
              · rcases hj with rfl | rfl
                · exact Or.inl rfl
                · exact Or.inr rfl
              · rw [List.getElem?_cons_succ]; exact hc
              · rw [List.getElem?_cons_succ]; exact hd
      | true =>
          have hnotrig : i ≤ 1 → ∀ d : Nat, t.head? = some d →
              Syllable.is_one_of_us d = true → ¬ extTrigger a d := by
            intro hi d hhead hds
            cases t with
            | nil => simp [List.head?] at hhead
            | cons b t' =>
                simp only [List.head?] at hhead
                injection hhead with hbd
                subst hbd
                refine hT 0 a b ?_ ?_ ?_
                · omega
                · rw [List.getElem?_cons_zero]
                · rw [List.getElem?_cons_succ, List.getElem?_cons_zero]
          cases i with
          | zero =>
              obtain rfl : p₁ = p₂ := h0 rfl
              have hstep : step false p₁ a t.head? = step true p₁ a t.head? :=
                pullup_step_ext_eq p₁ a t.head? ha (hnotrig (by omega))
              simp only [go, ha, Bool.true_eq_false, if_false,
                List.getElem?_cons_zero, hstep]
          | succ i' =>
              simp only [go, ha, Bool.true_eq_false, if_false,
                List.getElem?_cons_succ]
              refine ih (step false p₁ a t.head?).2 (step true p₂ a t.head?).2
                i' ?_ ?_ ?_
              · intro hv
                have hset : ∃ d, t.head? = some d ∧
                    Syllable.is_one_of_us d = true := by
                  cases hv with
                  | inl hv => exact pullup_step_sets false p₁ a t.head? hv
                  | inr hv => exact pullup_step_sets true p₂ a t.head? hv
                obtain ⟨d, hhead, hds⟩ := hset
                cases t with
                | nil => simp [List.head?] at hhead
                | cons b t' =>
                    simp only [List.head?] at hhead
                    injection hhead with hbd
                    subst hbd
                    exact ⟨b, t', rfl, hds⟩
              · intro hi0
                have hstep : step false p₂ a t.head? = step true p₂ a t.head? :=
                  pullup_step_ext_eq p₂ a t.head? ha (hnotrig (by omega))
                rw [← hstep]
                exact pullup_step_consumes false p₁ p₂ a t.head?
              · intro j c d hj hc hd
                refine hT (j + 1) c d ?_ ?_ ?_
                · rcases hj with rfl | rfl
                  · exact Or.inl rfl
                  · exact Or.inr rfl
                · rw [List.getElem?_cons_succ]; exact hc
                · rw [List.getElem?_cons_succ]; exact hd

end ChoseongPullup

namespace JongseongPushdown

open Unikorn

lemma pushdown_findRule_ext_eq (jongseong : Option Jongseong) (nextChoseong : Choseong) :
    ∀ l : List Entry,
    (∀ e ∈ l, e.2.2.2 = true →
      ¬ (e.1 = jongseong ∧ Choseong.Ieung = nextChoseong)) →
    findRule jongseong nextChoseong false l =
      findRule jongseong nextChoseong true l := by
  intro l
  induction l with
  | nil => intro _; rfl
  | cons e rest ih =>
      intro h
      by_cases hm : e.1 = jongseong ∧ Choseong.Ieung = nextChoseong
      · cases hx : e.2.2.2 with
        | true => exact absurd hm (h e (by simp) hx)
        | false =>
            rw [findRule, findRule, if_pos ⟨hm.1, hm.2, Or.inl hx⟩,
              if_pos ⟨hm.1, hm.2, Or.inl hx⟩]
      · rw [findRule, findRule,
          if_neg (fun hM => hm ⟨hM.1, hM.2.1⟩),
          if_neg (fun hM => hm ⟨hM.1, hM.2.1⟩)]
        exact ih (fun x hx => h x (by simp [hx]))

/-- On a pair free of extended triggers (including the guard), the scan step
is identical in ordinary and extended mode. -/
lemma pushdown_step_ext_eq (p : Option Choseong) (c : Nat) (nxt : Option Nat)
    (hc : Syllable.is_one_of_us c = true)
    (h : ∀ d, nxt = some d → Syllable.is_one_of_us d = true →
      ¬ extTrigger c d) :
    step false p c nxt = step true p c nxt := by
  cases nxt with
  | none => rfl
  | some d =>
      cases hd : Syllable.is_one_of_us d with
      | false => simp [step, hd]
      | true =>
          have hAB : ¬ ((∃ e ∈ RULESET, e.2.2.2 = true ∧
              e.1 = (Syllable.decompose c).jongseong ∧
              (Syllable.decompose d).choseong = Choseong.Ieung) ∨
              additionalCheck (Syllable.decompose c) (Syllable.decompose d)) :=
            fun hab => h d rfl hd ⟨hc, hd, hab⟩
          have hB : ¬ additionalCheck (applyPending p (Syllable.decompose c))
              (Syllable.decompose d) := by
            rw [additionalCheck_applyPending]
            exact fun hb => hAB (Or.inr hb)
          have hkey : findRule (applyPending p (Syllable.decompose c)).jongseong
                (Syllable.decompose d).choseong false RULESET =
              findRule (applyPending p (Syllable.decompose c)).jongseong
                (Syllable.decompose d).choseong true RULESET := by
            apply pushdown_findRule_ext_eq
            intro e he hx hM
            refine hAB (Or.inl ⟨e, he, hx, ?_, hM.2.symm⟩)
            rw [← applyPending_jongseong p (Syllable.decompose c)]
            exact hM.1
          simp only [step, hd, Bool.true_eq_false, if_false]
          rw [if_pos (Or.inl hB), if_pos (Or.inr trivial), hkey]

/-- Lockstep agreement of the ordinary and extended push-down scans away from
extended triggers and guard pairs. -/
lemma pushdown_go_agree : ∀ (l : List Nat) (p₁ p₂ : Option Choseong) (i : Nat),
    ((∃ ch, p₁ = some ch) ∨ (∃ ch, p₂ = some ch) →
      ∃ c t, l = c :: t ∧ Syllable.is_one_of_us c = true) →
    (i = 0 → p₁ = p₂) →
    (∀ (j c d : Nat), (j = i ∨ j + 1 = i) → l[j]? = some c →
      l[j + 1]? = some d → ¬ extTrigger c d) →
    (go false p₁ l)[i]? = (go true p₂ l)[i]? := by
  intro l
  induction l with
  | nil => intro p₁ p₂ i _ _ _; rfl
  | cons a t ih =>
      intro p₁ p₂ i hinv h0 hT
      cases ha : Syllable.is_one_of_us a with
      | false =>
          have hp₁ : p₁ = none := by
            cases hv : p₁ with
            | none => rfl
            | some ch =>
                obtain ⟨c, t', hEq, hcs⟩ := hinv (Or.inl ⟨ch, hv⟩)
                injection hEq with h1 h2
                rw [← h1, ha] at hcs
                exact Bool.noConfusion hcs
          have hp₂ : p₂ = none := by
            cases hv : p₂ with
            | none => rfl
            | some ch =>
                obtain ⟨c, t', hEq, hcs⟩ := hinv (Or.inr ⟨ch, hv⟩)
                injection hEq with h1 h2
                rw [← h1, ha] at hcs
                exact Bool.noConfusion hcs
          subst hp₁; subst hp₂
          rw [pushdown_go_skip false none a t ha, pushdown_go_skip true none a t ha]
          cases i with
          | zero => rw [List.getElem?_cons_zero, List.getElem?_cons_zero]
          | succ i' =>
              rw [List.getElem?_cons_succ, List.getElem?_cons_succ]
              refine ih none none i' (by rintro (⟨ch, hv⟩ | ⟨ch, hv⟩) <;>
                cases hv) (fun _ => rfl) ?_
              intro j c d hj hc hd
              refine hT (j + 1) c d ?_ ?_ ?_
              · rcases hj with rfl | rfl
                · exact Or.inl rfl
                · exact Or.inr rfl
              · rw [List.getElem?_cons_succ]; exact hc
              · rw [List.getElem?_cons_succ]; exact hd
      | true =>
          have hnotrig : i ≤ 1 → ∀ d : Nat, t.head? = some d →
              Syllable.is_one_of_us d = true → ¬ extTrigger a d := by
            intro hi d hhead hds
            cases t with
            | nil => simp [List.head?] at hhead
            | cons b t' =>
                simp only [List.head?] at hhead
                injection hhead with hbd
                subst hbd
                refine hT 0 a b ?_ ?_ ?_
                · omega
                · rw [List.getElem?_cons_zero]
                · rw [List.getElem?_cons_succ, List.getElem?_cons_zero]
          cases i with
          | zero =>
              obtain rfl : p₁ = p₂ := h0 rfl
              have hstep : step false p₁ a t.head? = step true p₁ a t.head? :=
                pushdown_step_ext_eq p₁ a t.head? ha (hnotrig (by omega))
              simp only [go, ha, Bool.true_eq_false, if_false,
                List.getElem?_cons_zero, hstep]
          | succ i' =>
              simp only [go, ha, Bool.true_eq_false, if_false,
                List.getElem?_cons_succ]
              refine ih (step false p₁ a t.head?).2 (step true p₂ a t.head?).2
                i' ?_ ?_ ?_
              · intro hv
                have hset : ∃ d, t.head? = some d ∧
                    Syllable.is_one_of_us d = true := by
                  cases hv with
                  | inl hv =>
                      obtain ⟨ch, hv⟩ := hv
                      exact pushdown_step_sets false p₁ a t.head? ch hv
                  | inr hv =>
                      obtain ⟨ch, hv⟩ := hv
                      exact pushdown_step_sets true p₂ a t.head? ch hv
                obtain ⟨d, hhead, hds⟩ := hset
                cases t with
                | nil => simp [List.head?] at hhead
                | cons b t' =>
                    simp only [List.head?] at hhead
                    injection hhead with hbd
                    subst hbd
                    exact ⟨b, t', rfl, hds⟩
              · intro hi0
                have hstep : step false p₂ a t.head? = step true p₂ a t.head? :=
                  pushdown_step_ext_eq p₂ a t.head? ha (hnotrig (by omega))
                rw [← hstep]
                exact pushdown_step_consumes false p₁ p₂ a t.head?
              · intro j c d hj hc hd
                refine hT (j + 1) c d ?_ ?_ ?_
                · rcases hj with rfl | rfl
                  · exact Or.inl rfl
                  · exact Or.inr rfl
                · rw [List.getElem?_cons_succ]; exact hc
                · rw [List.getElem?_cons_succ]; exact hd

end JongseongPushdown

open Unikorn JongseongPushdown in
/-- C4 fails as stated for push-down: on [U+B3CB, U+C774] the ordinary and
extended outputs differ at position 0 even though no `is_extended` table
entry's trigger condition is met on the (only) adjacent pair — the difference
comes from the palatalization guard, not from an extended rule. -/
theorem claim_C4_counterexample :
    (pushdown_jongseong_config [0xB3CB, 0xC774] false)[0]? = some 0xB3CB ∧
    (pushdown_jongseong_config [0xB3CB, 0xC774] true)[0]? = some 0xB3C4 ∧
    (∀ e ∈ RULESET, e.2.2.2 = true →
      ¬ (e.1 = (Syllable.decompose 0xB3CB).jongseong ∧
        (Syllable.decompose 0xC774).choseong = Choseong.Ieung)) ∧
    (0xB3CB : Nat) ≠ 0xB3C4 := by
  refine ⟨by decide, by decide, by decide, by decide⟩

open Unikorn ChoseongPullup JongseongPushdown in
/-- C4 (amended): the ordinary-mode and extended-mode outputs agree at every
position not adjacent to a pair meeting an extended trigger — for pull-up an
`is_extended` entry whose trigger matches, for push-down additionally any pair
falling under the palatalization guard. -/
theorem claim_C4 :
    ∀ (s : List Nat) (i : Nat),
      ((∀ (j c d : Nat), (j = i ∨ j + 1 = i) → s[j]? = some c →
          s[j + 1]? = some d → ¬ ChoseongPullup.extTrigger c d) →
        (pullup_choseong_config s false)[i]? =
          (pullup_choseong_config s true)[i]?) ∧
      ((∀ (j c d : Nat), (j = i ∨ j + 1 = i) → s[j]? = some c →
          s[j + 1]? = some d → ¬ JongseongPushdown.extTrigger c d) →
        (pushdown_jongseong_config s false)[i]? =
          (pushdown_jongseong_config s true)[i]?) := by
  intro s i
  constructor
  · intro hT
    exact ChoseongPullup.pullup_go_agree s false false i
      (by rintro (hv | hv) <;> cases hv) (fun _ => rfl) hT
  · intro hT
    exact JongseongPushdown.pushdown_go_agree s none none i
      (by rintro (⟨ch, hv⟩ | ⟨ch, hv⟩) <;> cases hv) (fun _ => rfl) hT

open Unikorn ChoseongPullup JongseongPushdown in
/-- Witness for C4 (amended) on the single-character string [0x41], where no
adjacent pair exists at all. -/
theorem claim_C4_witness :
    (pullup_choseong_config [0x41] false)[0]? =
      (pullup_choseong_config [0x41] true)[0]? ∧
    (pushdown_jongseong_config [0x41] false)[0]? =
      (pushdown_jongseong_config [0x41] true)[0]? :=
  ⟨(claim_C4 [0x41] 0).1 (fun j c d _ _ hd => by
      rw [List.getElem?_eq_none (Nat.succ_le_succ (Nat.zero_le j))] at hd
      cases hd),
   (claim_C4 [0x41] 0).2 (fun j c d _ _ hd => by
      rw [List.getElem?_eq_none (Nat.succ_le_succ (Nat.zero_le j))] at hd
      cases hd)⟩
